import Mathlib

/-!
Shallow embedding of the statistics-aggregation core of `src/App.jsx`
(gambit-monthly).

Modelling conventions:
* JS numbers that have already passed through `Number(...)` are modelled as
  `NumLike := Option ℚ`, where `none` stands for a non-finite result (`NaN`,
  `±Infinity`) and `some q` for the finite value `q`.
* JS string fields that may be absent are `Option String`; the JS falsiness
  of the empty string is handled explicitly wherever the source tests
  truthiness (`a || b`, `!name`).
* JS objects used as string-keyed maps are association lists.  Keys are
  only ever looked up except for the aggregate map, whose `Object.values`
  enumeration order matters: per ECMA-262 `OrdinaryOwnPropertyKeys`, keys
  that are canonical array indices (decimal integers < 2^32 - 1) come
  first in ascending numeric order, then the remaining string keys in
  insertion order.  `jsObjectOrder` models this.
* `Array.prototype.sort` with a consistent comparator is stable
  (ES2019), so its result is the unique stable sorted permutation; it is
  modelled by `List.insertionSort`, which Mathlib proves sorted, a
  permutation, and stable.
-/

/-- A JS value after `Number(...)`: `none` = non-finite (`NaN`/`±∞`). -/
abbrev NumLike := Option ℚ

/-- `safeNumber` (App.jsx 37-38): `Number.isFinite(Number(v)) ? Number(v) : 0`. -/
def safeNumber : NumLike → ℚ
  | none => 0
  | some q => q

/-- JS `a || b` on possibly-absent strings: the empty string is falsy. -/
def strOr : Option String → Option String → Option String
  | some s, y => if s = "" then y else some s
  | none, y => y

/-- Collapse a string produced by a `||` chain through the JS truthiness
test `!name` that follows it: empty or absent means unresolved. -/
def strTruthy : Option String → Option String
  | some s => if s = "" then none else some s
  | none => none

/-- JS `a ?? b` on possibly-absent numeric fields (nullish coalescing:
present `NaN`/`0` values are NOT skipped). -/
def nullish : Option NumLike → Option NumLike → NumLike
  | some v, _ => v
  | none, some v => v
  | none, none => none

/-- One row of a tournament results feed (App.jsx `results.forEach(player ...)`).
`userName`/`userId` model `player.user?.name` / `player.user?.id`. -/
structure ResultRow where
  username : Option String
  name : Option String
  userName : Option String
  userId : Option String
  score : Option NumLike
  points : Option NumLike
  performance : Option NumLike
  perf : Option NumLike
  performanceRating : Option NumLike
deriving DecidableEq

/-- `getUserName` (App.jsx 40-41):
`entry?.username || entry?.name || entry?.user?.name || entry?.user?.id`. -/
def getUserName (e : ResultRow) : Option String :=
  strOr e.username (strOr e.name (strOr e.userName e.userId))

/-- The identity actually used by the aggregator: `getUserName` followed by
the `if (!name) return;` truthiness test (App.jsx 136-137). -/
def resolveName (e : ResultRow) : Option String :=
  strTruthy (getUserName e)

/-- `safeNumber(player.score ?? player.points)` (App.jsx 138). -/
def rowPoints (r : ResultRow) : ℚ :=
  safeNumber (nullish r.score r.points)

/-- `safeNumber(player.performance ?? player.perf ?? player.performanceRating)`
(App.jsx 139-141). -/
def rowPerformance (r : ResultRow) : ℚ :=
  safeNumber (nullish r.performance (nullish r.perf r.performanceRating))

/-- Per-player win/draw/loss tally (the `{ w, d, l, games }` objects built
by `fetchTournamentGames`). -/
structure Tally where
  w : Nat
  d : Nat
  l : Nat
  games : Nat
deriving DecidableEq

def zeroTally : Tally := ⟨0, 0, 0, 0⟩

/-- The `stats` object of `fetchTournamentGames`: player name → tally. -/
abbrev TallyMap := List (String × Tally)

/-- `games[name] || { w: 0, d: 0, l: 0, games: 0 }` (App.jsx 142). -/
def tallyLookup (m : TallyMap) (n : String) : Tally :=
  (List.lookup n m).getD zeroTally

/-- `if (!stats[k]) stats[k] = { w: 0, d: 0, l: 0, games: 0 }` (App.jsx 243-244). -/
def tmEnsure (m : TallyMap) (k : String) : TallyMap :=
  if (List.lookup k m).isSome then m else m ++ [(k, zeroTally)]

/-- In-place field update of the entry keyed `k` (`stats[k].f += 1`). -/
def tmUpdate (m : TallyMap) (k : String) (f : Tally → Tally) : TallyMap :=
  m.map fun p => if p.1 = k then (p.1, f p.2) else p

/-- One raw game of the tournament games feed.  `whiteName`/`whiteId` model
`game?.players?.white?.user?.name` / `...user?.id`, similarly for black;
`winner` models `game?.winner`. -/
structure RawGame where
  whiteName : Option String
  whiteId : Option String
  blackName : Option String
  blackId : Option String
  winner : Option String
deriving DecidableEq

/-- `const white = ...name || ...id` followed by the `!white` test
(App.jsx 238, 240): `none` means the side is unresolvable. -/
def gameWhite (g : RawGame) : Option String :=
  strTruthy (strOr g.whiteName g.whiteId)

/-- Black-side identity resolution (App.jsx 239-240). -/
def gameBlack (g : RawGame) : Option String :=
  strTruthy (strOr g.blackName g.blackId)

/-- The body of `games.forEach(...)` in `fetchTournamentGames`
(App.jsx 237-259). -/
def tallyStep (m : TallyMap) (g : RawGame) : TallyMap :=
  match gameWhite g, gameBlack g with
  | some white, some black =>
    let m1 := tmEnsure (tmEnsure m white) black
    let m2 := tmUpdate m1 white fun t => { t with games := t.games + 1 }
    let m3 := tmUpdate m2 black fun t => { t with games := t.games + 1 }
    if g.winner = some "white" then
      tmUpdate (tmUpdate m3 white fun t => { t with w := t.w + 1 })
        black fun t => { t with l := t.l + 1 }
    else if g.winner = some "black" then
      tmUpdate (tmUpdate m3 black fun t => { t with w := t.w + 1 })
        white fun t => { t with l := t.l + 1 }
    else
      tmUpdate (tmUpdate m3 white fun t => { t with d := t.d + 1 })
        black fun t => { t with d := t.d + 1 }
  | _, _ => m

/-- The Game Tally Builder: `fetchTournamentGames`'s reduction of the raw
game list into the `stats` map (App.jsx 235-261). -/
def buildTally (games : List RawGame) : TallyMap :=
  games.foldl tallyStep []

/-- Sum of a tally field over all players of a tally map. -/
def tallySum (f : Tally → Nat) (m : TallyMap) : Nat :=
  (m.map fun p => f p.2).sum

/-- `normalizeMs` (App.jsx 5-9).  `now` is `Date.now()` at construction;
`none` input means `Number(value)` was non-finite. -/
def normalizeMs (now : ℚ) (value : NumLike) : ℚ :=
  match value with
  | none => now
  | some num => if num < 10000000000 then num * 1000 else num

/-- JS numeric truthiness for a `NumLike`: `NaN` and `0` are falsy. -/
def numTruthy : NumLike → Bool
  | none => false
  | some q => q != 0

/-- JS `a || b` on possibly-absent numeric fields. -/
def jsNumOr : Option NumLike → Option NumLike → Option NumLike
  | some v, y => if numTruthy v then some v else y
  | none, y => y

/-- `normalizeMs(item.startsAt || item.createdAt || Date.now())`
(App.jsx 205), the timestamp a `Tournament` is constructed with. -/
def mkStartsAt (now : ℚ) (startsAtRaw createdAtRaw : Option NumLike) : ℚ :=
  normalizeMs now ((jsNumOr startsAtRaw (jsNumOr createdAtRaw (some (some now)))).getD none)

/-- A normalized tournament (App.jsx 202-208).  `startsAt` is an integer
count of epoch milliseconds. -/
structure Tournament where
  id : String
  fullName : String
  startsAt : Int
  minutes : Option ℚ
  nbPlayers : Option ℚ
deriving DecidableEq

/-- Year and month (1-12) of the proleptic-Gregorian civil date of a day
count relative to 1970-01-01, as computed by ECMAScript UTC date
accessors.  Standard civil-from-days arithmetic with floor division. -/
def civilYM (days : Int) : Int × Int :=
  let z := days + 719468
  let era := Int.fdiv z 146097
  let doe := z - era * 146097
  let yoe := Int.fdiv (doe - Int.fdiv doe 1460 + Int.fdiv doe 36524 - Int.fdiv doe 146096) 365
  let y := yoe + era * 400
  let doy := doe - (365 * yoe + Int.fdiv yoe 4 - Int.fdiv yoe 100)
  let mp := Int.fdiv (5 * doy + 2) 153
  let m := if mp < 10 then mp + 3 else mp - 9
  (if m ≤ 2 then y + 1 else y, m)

/-- `String(month).padStart(2, "0")` for a month 1-12. -/
def pad2 (n : Nat) : String :=
  if n < 10 then "0" ++ toString n else toString n

/-- `formatMonthKey` (App.jsx 11-16): UTC `YYYY-MM` of an epoch-ms value. -/
def formatMonthKey (ms : Int) : String :=
  let ym := civilYM (Int.fdiv ms 86400000)
  toString ym.1 ++ "-" ++ pad2 ym.2.toNat

/-- JS `hay.includes(needle)`. -/
def strIncludes (hay needle : String) : Bool :=
  decide (needle.data <:+: hay.data)

/-- JS `String.prototype.toLowerCase` (restricted to the alphabet Lean's
`String.toLower` folds). -/
def jsToLower (s : String) : String :=
  s.toLower

/-- Month predicate of `filterTournaments` (App.jsx 117-118); an absent
month filter is the empty string, which is falsy. -/
def byMonth (monthFilter : String) (t : Tournament) : Bool :=
  (monthFilter == "") || (formatMonthKey t.startsAt == monthFilter)

/-- Name predicate of `filterTournaments` (App.jsx 119-120). -/
def byName (nameFilter : String) (t : Tournament) : Bool :=
  (nameFilter == "") || strIncludes (jsToLower t.fullName) (jsToLower nameFilter)

/-- The Tournament Filter (App.jsx 116-122). -/
def filterTournaments (monthFilter nameFilter : String) (list : List Tournament) :
    List Tournament :=
  list.filter fun t => byMonth monthFilter t && byName nameFilter t

/-- One player's running aggregate (the values of the `aggregate` object,
App.jsx 145-156). -/
structure AggRecord where
  name : String
  points : ℚ
  w : Nat
  d : Nat
  l : Nat
  tournaments : Nat
  perfSum : ℚ
  perfWeight : ℚ
deriving DecidableEq

def freshRecord (n : String) : AggRecord :=
  ⟨n, 0, 0, 0, 0, 0, 0, 0⟩

/-- The `aggregate` object, in property-insertion order. -/
abbrev AggMap := List AggRecord

def aggFind (m : AggMap) (n : String) : Option AggRecord :=
  m.find? fun r => r.name == n

/-- `if (!aggregate[name]) aggregate[name] = { ... }` (App.jsx 145-156). -/
def aggInsert (m : AggMap) (n : String) : AggMap :=
  if (aggFind m n).isSome then m else m ++ [freshRecord n]

/-- The `update` argument object passed to `sumStats` (App.jsx 158-166). -/
structure Contribution where
  points : ℚ
  w : Nat
  d : Nat
  l : Nat
  tournaments : Nat
  perfSum : ℚ
  perfWeight : ℚ
deriving DecidableEq

/-- `sumStats` (App.jsx 70-78). -/
def applyContrib (r : AggRecord) (c : Contribution) : AggRecord :=
  { r with
    points := r.points + c.points
    w := r.w + c.w
    d := r.d + c.d
    l := r.l + c.l
    tournaments := r.tournaments + c.tournaments
    perfSum := r.perfSum + c.perfSum
    perfWeight := r.perfWeight + c.perfWeight }

def applyContribs (base : AggRecord) (cs : List Contribution) : AggRecord :=
  cs.foldl applyContrib base

/-- `sumStats(aggregate[name], update)` applied to the entry keyed `n`. -/
def aggUpdate (m : AggMap) (n : String) (c : Contribution) : AggMap :=
  m.map fun r => if r.name == n then applyContrib r c else r

/-- `const weight = stats.games > 0 ? stats.games : points || 1`
(App.jsx 143).  `points` is finite here, so `points || 1` is `points`
unless `points` is `0`. -/
def weightFor (stats : Tally) (pts : ℚ) : ℚ :=
  if 0 < stats.games then (stats.games : ℚ) else if pts = 0 then 1 else pts

/-- The per-row `update` record (App.jsx 138-143, 158-166), for a row whose
identity resolved to `n` against the tournament's tally map. -/
def rowContribution (tallies : TallyMap) (n : String) (r : ResultRow) : Contribution :=
  let pts := rowPoints r
  let stats := tallyLookup tallies n
  let wt := weightFor stats pts
  ⟨pts, stats.w, stats.d, stats.l, 1, rowPerformance r * wt, wt⟩

/-- Body of `results.forEach(player => ...)` (App.jsx 135-167). -/
def processRow (tallies : TallyMap) (m : AggMap) (r : ResultRow) : AggMap :=
  match resolveName r with
  | none => m
  | some n => aggUpdate (aggInsert m n) n (rowContribution tallies n r)

/-- `resultsByTournament[t.id] || []` (App.jsx 132). -/
def resultsFor (resultsBy : List (String × List ResultRow)) (id : String) :
    List ResultRow :=
  (List.lookup id resultsBy).getD []

/-- `gamesByTournament[t.id] || {}` (App.jsx 133). -/
def talliesFor (gamesBy : List (String × TallyMap)) (id : String) : TallyMap :=
  (List.lookup id gamesBy).getD []

/-- Body of `filteredTournaments.forEach(t => ...)` (App.jsx 131-168). -/
def processTournament (resultsBy : List (String × List ResultRow))
    (gamesBy : List (String × TallyMap)) (m : AggMap) (t : Tournament) : AggMap :=
  (resultsFor resultsBy t.id).foldl (processRow (talliesFor gamesBy t.id)) m

/-- The Player Aggregator fold (App.jsx 129-168). -/
def aggregateAll (filtered : List Tournament)
    (resultsBy : List (String × List ResultRow))
    (gamesBy : List (String × TallyMap)) : AggMap :=
  filtered.foldl (processTournament resultsBy gamesBy) []

/-- One step of the aggregator fold over the flattened row sequence. -/
def aggStep (m : AggMap) (p : TallyMap × ResultRow) : AggMap :=
  processRow p.1 m p.2

/-- All (tally-map, row) pairs of the filtered tournaments, in fold order. -/
def flatRows (filtered : List Tournament)
    (resultsBy : List (String × List ResultRow))
    (gamesBy : List (String × TallyMap)) : List (TallyMap × ResultRow) :=
  filtered.flatMap fun t =>
    (resultsFor resultsBy t.id).map fun r => (talliesFor gamesBy t.id, r)

/-- The contributions folded into player `n`'s record, in fold order. -/
def contribsOf (ps : List (TallyMap × ResultRow)) (n : String) : List Contribution :=
  ps.filterMap fun p =>
    match resolveName p.2 with
    | some m => if m = n then some (rowContribution p.1 n p.2) else none
    | none => none

/-- The canonical-array-index test of ECMA-262 property ordering: `some i`
iff the string is the decimal representation of an integer below 2^32 - 1. -/
def arrayIndexKey (s : String) : Option Nat :=
  match s.toNat? with
  | some n => if toString n = s ∧ n < 4294967295 then some n else none
  | none => none

def idxKeyNat (r : AggRecord) : Nat :=
  (arrayIndexKey r.name).getD 0

/-- Enumeration-order relation for array-index keys. -/
def idxLe (a b : AggRecord) : Prop :=
  idxKeyNat a ≤ idxKeyNat b

instance : DecidableRel idxLe :=
  fun a b => inferInstanceAs (Decidable (idxKeyNat a ≤ idxKeyNat b))

instance : IsTotal AggRecord idxLe :=
  ⟨fun a b => Nat.le_total (idxKeyNat a) (idxKeyNat b)⟩

instance : IsTrans AggRecord idxLe :=
  ⟨fun _ _ _ h1 h2 => Nat.le_trans h1 h2⟩

/-- `Object.values(aggregate)` enumeration order (ECMA-262
`OrdinaryOwnPropertyKeys`): canonical array-index keys first, ascending,
then the remaining keys in insertion order. -/
def jsObjectOrder (m : AggMap) : AggMap :=
  List.insertionSort idxLe (m.filter fun r => (arrayIndexKey r.name).isSome) ++
    m.filter fun r => (arrayIndexKey r.name).isNone

/-- A finalized output row (App.jsx 170-180). -/
structure StatRow where
  name : String
  points : ℚ
  w : Nat
  d : Nat
  l : Nat
  tournaments : Nat
  perfSum : ℚ
  perfWeight : ℚ
  games : Nat
  winRate : ℚ
  performance : ℚ
deriving DecidableEq

/-- The Metric Finalizer: the `.map(entry => ...)` body (App.jsx 171-180). -/
def finalize (r : AggRecord) : StatRow :=
  let g := r.w + r.d + r.l
  { name := r.name
    points := r.points
    w := r.w
    d := r.d
    l := r.l
    tournaments := r.tournaments
    perfSum := r.perfSum
    perfWeight := r.perfWeight
    games := g
    winRate := if 0 < g then ((r.w : ℚ) / (g : ℚ)) * 100 else 0
    performance := if 0 < r.perfWeight then r.perfSum / r.perfWeight else 0 }

/-- "`a` may precede `b`" for the comparator
`(a, b) => b.points - a.points || b.winRate - a.winRate` (App.jsx 181):
`a` may come no later than `b` iff the comparator is ≤ 0 on `(a, b)`. -/
def statGE (a b : StatRow) : Prop :=
  b.points < a.points ∨ (a.points = b.points ∧ b.winRate ≤ a.winRate)

instance : DecidableRel statGE :=
  fun a b =>
    inferInstanceAs (Decidable (b.points < a.points ∨ (a.points = b.points ∧ b.winRate ≤ a.winRate)))

instance : IsTotal StatRow statGE :=
  ⟨fun a b => by
    rcases lt_trichotomy a.points b.points with h | h | h
    · exact Or.inr (Or.inl h)
    · rcases le_total a.winRate b.winRate with hw | hw
      · exact Or.inr (Or.inr ⟨h.symm, hw⟩)
      · exact Or.inl (Or.inr ⟨h, hw⟩)
    · exact Or.inl (Or.inl h)⟩

instance : IsTrans StatRow statGE :=
  ⟨fun a b c hab hbc => by
    rcases hab with h1 | ⟨h1, h1w⟩ <;> rcases hbc with h2 | ⟨h2, h2w⟩
    · exact Or.inl (h2.trans h1)
    · exact Or.inl (h2 ▸ h1)
    · exact Or.inl (h1 ▸ h2)
    · exact Or.inr ⟨h1.trans h2, h2w.trans h1w⟩⟩

/-- The Aggregation Orchestrator output `aggregatedStats` (App.jsx 129-182):
fold, enumerate, finalize, then the ES2019-stable sort by the comparator. -/
def aggregatedStats (filtered : List Tournament)
    (resultsBy : List (String × List ResultRow))
    (gamesBy : List (String × TallyMap)) : List StatRow :=
  List.insertionSort statGE
    ((jsObjectOrder (aggregateAll filtered resultsBy gamesBy)).map finalize)

/-- The full pipeline: Tournament Filter then aggregation (App.jsx 124-182). -/
def orchestrate (monthFilter nameFilter : String) (ts : List Tournament)
    (resultsBy : List (String × List ResultRow))
    (gamesBy : List (String × TallyMap)) : List StatRow :=
  aggregatedStats (filterTournaments monthFilter nameFilter ts) resultsBy gamesBy

/-! ## Theorems -/

/-- C5: the Tournament Filter returns an order-preserving subsequence of its
input, and a tournament is kept exactly when (the month key is absent, or its
`startsAt` converted to a UTC `YYYY-MM` month equals the month key) and (the
name substring is absent, or its `fullName`, case-folded, contains the
case-folded substring). -/
theorem c5_filter_is_predicate_subsequence (monthFilter nameFilter : String)
    (l : List Tournament) :
    (filterTournaments monthFilter nameFilter l).Sublist l ∧
    ∀ t : Tournament, t ∈ filterTournaments monthFilter nameFilter l ↔
      t ∈ l ∧ (monthFilter = "" ∨ formatMonthKey t.startsAt = monthFilter) ∧
        (nameFilter = "" ∨ (jsToLower nameFilter).data <:+: (jsToLower t.fullName).data) := by
  constructor
  · exact List.filter_sublist l
  · intro t
    simp only [filterTournaments, List.mem_filter, Bool.and_eq_true, byMonth, byName,
      Bool.or_eq_true, beq_iff_eq, strIncludes, decide_eq_true_eq]

/-- C6: timestamp normalization maps every finite raw value below
10,000,000,000 to that value times 1000, leaves every other finite value
unchanged, and maps a non-finite value to the current time; a missing
timestamp (both `startsAt` and `createdAt` absent at construction) also
yields the current time. -/
theorem c6_normalize_ms (now v : ℚ) :
    (v < 10000000000 → normalizeMs now (some v) = v * 1000) ∧
    (10000000000 ≤ v → normalizeMs now (some v) = v) ∧
    normalizeMs now none = now ∧
    (10000000000 ≤ now → mkStartsAt now none none = now) := by
  refine ⟨fun h => ?_, fun h => ?_, rfl, fun h => ?_⟩
  · simp [normalizeMs, h]
  · simp [normalizeMs, not_lt.mpr h]
  · simp [mkStartsAt, jsNumOr, normalizeMs, not_lt.mpr h]

/-- Witness for C6 at concrete inputs. -/
theorem c6_normalize_ms_witness :
    normalizeMs 1700000000000 (some 5) = 5000 ∧
    normalizeMs 1700000000000 (some 20000000000) = 20000000000 ∧
    normalizeMs 1700000000000 none = 1700000000000 ∧
    mkStartsAt 1700000000000 none none = 1700000000000 := by
  have h := c6_normalize_ms 1700000000000 5
  have h2 := c6_normalize_ms 1700000000000 20000000000
  refine ⟨?_, h2.2.1 (by norm_num), h.2.2.1, h2.2.2.2 (by norm_num)⟩
  have h5 := h.1 (by norm_num)
  rw [h5]; norm_num

/-- C1 counterexample: a row whose tally has `gamesPlayed = 0` and whose
`points` is `-2` contributes performance weight `-2`, not the `1` the claim
requires for the `points ≤ 0` case (JS `points || 1` tests truthiness, not
positivity). -/
theorem c1_weight_counterexample :
    (aggregatedStats [⟨"t1", "X", 0, none, none⟩]
        [("t1", [⟨some "a", none, none, none, some (some (-2)), none, none, none, none⟩])]
        []).map (fun r => r.perfWeight) = [(-2 : ℚ)] ∧ ((-2 : ℚ)) ≠ 1 := by
  exact ⟨by with_unfolding_all rfl, by norm_num⟩

/-- C1 amended: the weight is the tally's `gamesPlayed` when positive;
otherwise it is the row's `points` whenever `points ≠ 0` (including negative
points), and `1` only when `points = 0`.  The weight is never zero, and it
is exactly the amount added to the record's `performanceWeightTotal`. -/
theorem c1_weight_fallback_amended (stats : Tally) (pts : ℚ) :
    (0 < stats.games → weightFor stats pts = (stats.games : ℚ)) ∧
    (stats.games = 0 → pts ≠ 0 → weightFor stats pts = pts) ∧
    (stats.games = 0 → pts = 0 → weightFor stats pts = 1) ∧
    weightFor stats pts ≠ 0 ∧
    (∀ (tallies : TallyMap) (n : String) (r : ResultRow),
      (rowContribution tallies n r).perfWeight =
        weightFor (tallyLookup tallies n) (rowPoints r)) := by
  refine ⟨fun h => ?_, fun h hp => ?_, fun h hp => ?_, ?_, fun tallies n r => rfl⟩
  · simp [weightFor, h]
  · simp [weightFor, h, hp]
  · simp [weightFor, h, hp]
  · by_cases hg : 0 < stats.games
    · simp only [weightFor, hg, if_true]
      exact Nat.cast_ne_zero.mpr (Nat.pos_iff_ne_zero.mp hg)
    · by_cases hp : pts = 0 <;> simp [weightFor, hg, hp]

/-- Witness for the amended C1 at concrete inputs. -/
theorem c1_weight_fallback_witness :
    weightFor ⟨2, 1, 0, 3⟩ 5 = 3 ∧ weightFor ⟨0, 0, 0, 0⟩ (-2) = -2 ∧
    weightFor ⟨0, 0, 0, 0⟩ 0 = 1 ∧ weightFor ⟨0, 0, 0, 0⟩ (-2) ≠ 0 := by
  refine ⟨?_, ?_, ?_, ?_⟩
  · have h := (c1_weight_fallback_amended ⟨2, 1, 0, 3⟩ 5).1 (by decide)
    simpa using h
  · exact (c1_weight_fallback_amended ⟨0, 0, 0, 0⟩ (-2)).2.1 rfl (by norm_num)
  · exact (c1_weight_fallback_amended ⟨0, 0, 0, 0⟩ 0).2.2.1 rfl rfl
  · exact (c1_weight_fallback_amended ⟨0, 0, 0, 0⟩ (-2)).2.2.2.1

theorem lookup_tmUpdate (m : TallyMap) (k n : String) (f : Tally → Tally) :
    List.lookup n (tmUpdate m k f) =
      if n = k then (List.lookup n m).map f else List.lookup n m := by
  induction m with
  | nil => simp [tmUpdate]
  | cons p rest ih =>
    obtain ⟨pk, pv⟩ := p
    simp only [tmUpdate, List.map_cons] at ih ⊢
    by_cases h1 : pk = k <;> by_cases h2 : n = pk
    · simp_all [List.lookup_cons, beq_iff_eq]
    · simp_all [List.lookup_cons, beq_false_of_ne, beq_iff_eq]
    · subst h2
      simp_all [List.lookup_cons, beq_false_of_ne, beq_iff_eq]
    · have h3 : ¬k = pk := fun hh => h1 hh.symm
      simp_all [List.lookup_cons, beq_false_of_ne, beq_iff_eq]

theorem lookup_tmEnsure (m : TallyMap) (k n : String) :
    List.lookup n (tmEnsure m k) =
      if n = k then some (tallyLookup m k) else List.lookup n m := by
  unfold tmEnsure
  by_cases hk : (List.lookup k m).isSome
  · simp only [hk, if_true]
    by_cases h : n = k
    · subst h
      obtain ⟨t, ht⟩ := Option.isSome_iff_exists.mp hk
      simp [ht, tallyLookup]
    · simp [h]
  · have hk2 : List.lookup k m = none := Option.not_isSome_iff_eq_none.mp hk
    simp only [hk, Bool.false_eq_true, if_false, List.lookup_append]
    by_cases h : n = k
    · subst h
      simp [hk2, tallyLookup, List.lookup_cons]
    · simp [h, List.lookup_cons, beq_false_of_ne, Option.or_none]

theorem tallyLookup_tmEnsure (m : TallyMap) (k n : String) :
    tallyLookup (tmEnsure m k) n = tallyLookup m n := by
  unfold tallyLookup
  rw [lookup_tmEnsure]
  by_cases h : n = k
  · subst h; simp [tallyLookup]
  · simp [h]

theorem lookup_tmEnsure_self_isSome (m : TallyMap) (k : String) :
    (List.lookup k (tmEnsure m k)).isSome := by
  rw [lookup_tmEnsure]; simp

theorem lookup_tmUpdate_isSome (m : TallyMap) (k n : String) (f : Tally → Tally) :
    (List.lookup n (tmUpdate m k f)).isSome = (List.lookup n m).isSome := by
  rw [lookup_tmUpdate]
  by_cases h : n = k <;> simp [h]

theorem lookup_tmEnsure_isSome_mono (m : TallyMap) (k n : String)
    (h : (List.lookup n m).isSome) : (List.lookup n (tmEnsure m k)).isSome := by
  rw [lookup_tmEnsure]
  by_cases hk : n = k <;> simp [hk, h]

theorem tallyLookup_tmUpdate_present (m : TallyMap) (k n : String) (f : Tally → Tally)
    (hk : (List.lookup k m).isSome) :
    tallyLookup (tmUpdate m k f) n =
      if n = k then f (tallyLookup m k) else tallyLookup m n := by
  unfold tallyLookup
  rw [lookup_tmUpdate]
  by_cases h : n = k
  · subst h
    obtain ⟨t, ht⟩ := Option.isSome_iff_exists.mp hk
    simp [ht]
  · simp [h]

theorem tallyLookup_double_update (m : TallyMap) (a b n : String) (fa fb : Tally → Tally)
    (ha : (List.lookup a m).isSome) (hbm : (List.lookup b m).isSome) :
    tallyLookup (tmUpdate (tmUpdate m a fa) b fb) n =
      if n = b then
        (if b = a then fb (fa (tallyLookup m a)) else fb (tallyLookup m b))
      else if n = a then fa (tallyLookup m a) else tallyLookup m n := by
  rw [tallyLookup_tmUpdate_present _ _ _ _ (by rw [lookup_tmUpdate_isSome]; exact hbm)]
  by_cases h1 : n = b
  · subst h1
    rw [if_pos rfl, tallyLookup_tmUpdate_present _ _ _ _ ha]
    by_cases h2 : n = a <;> simp [h2]
  · rw [if_neg h1, tallyLookup_tmUpdate_present _ _ _ _ ha]
    simp [h1]

theorem tallyLookup_tallyStep (m : TallyMap) (g : RawGame) (white black n : String)
    (hw : gameWhite g = some white) (hb : gameBlack g = some black) :
    tallyLookup (tallyStep m g) n =
      { w := (tallyLookup m n).w + (if g.winner = some "white" ∧ n = white then 1 else 0)
          + (if g.winner = some "black" ∧ n = black then 1 else 0),
        d := (tallyLookup m n).d
          + (if g.winner ≠ some "white" ∧ g.winner ≠ some "black" ∧ n = white then 1 else 0)
          + (if g.winner ≠ some "white" ∧ g.winner ≠ some "black" ∧ n = black then 1 else 0),
        l := (tallyLookup m n).l + (if g.winner = some "white" ∧ n = black then 1 else 0)
          + (if g.winner = some "black" ∧ n = white then 1 else 0),
        games := (tallyLookup m n).games + (if n = white then 1 else 0)
          + (if n = black then 1 else 0) } := by
  have hw1 : (List.lookup white (tmEnsure (tmEnsure m white) black)).isSome :=
    lookup_tmEnsure_isSome_mono _ _ _ (lookup_tmEnsure_self_isSome m white)
  have hb1 : (List.lookup black (tmEnsure (tmEnsure m white) black)).isSome :=
    lookup_tmEnsure_self_isSome _ _
  have e1 : ∀ x, tallyLookup (tmEnsure (tmEnsure m white) black) x = tallyLookup m x := by
    intro x; rw [tallyLookup_tmEnsure, tallyLookup_tmEnsure]
  have hg3 : ∀ x, tallyLookup
      (tmUpdate (tmUpdate (tmEnsure (tmEnsure m white) black) white
        (fun t => { t with games := t.games + 1 })) black
        (fun t => { t with games := t.games + 1 })) x =
      { tallyLookup m x with games := (tallyLookup m x).games
          + (if x = white then 1 else 0) + (if x = black then 1 else 0) } := by
    intro x
    rw [tallyLookup_double_update _ _ _ _ _ _ hw1 hb1]
    by_cases h1 : x = black <;> by_cases h2 : x = white <;>
      by_cases h3 : black = white <;> simp_all [e1]
  have hw3 : (List.lookup white (tmUpdate (tmUpdate (tmEnsure (tmEnsure m white) black) white
      (fun t => { t with games := t.games + 1 })) black
      (fun t => { t with games := t.games + 1 }))).isSome := by
    rw [lookup_tmUpdate_isSome, lookup_tmUpdate_isSome]; exact hw1
  have hb3 : (List.lookup black (tmUpdate (tmUpdate (tmEnsure (tmEnsure m white) black) white
      (fun t => { t with games := t.games + 1 })) black
      (fun t => { t with games := t.games + 1 }))).isSome := by
    rw [lookup_tmUpdate_isSome, lookup_tmUpdate_isSome]; exact hb1
  unfold tallyStep
  rw [hw, hb]
  dsimp only
  by_cases hww : g.winner = some "white"
  · rw [hww, if_pos rfl, tallyLookup_double_update _ _ _ _ _ _ hw3 hb3]
    by_cases h1 : n = black <;> by_cases h2 : n = white <;>
      by_cases h3 : black = white <;> simp_all [hg3, Tally.mk.injEq]
  · by_cases hwb : g.winner = some "black"
    · rw [hwb, if_neg (by decide), if_pos rfl,
        tallyLookup_double_update _ _ _ _ _ _ hb3 hw3]
      by_cases h1 : n = black <;> by_cases h2 : n = white <;>
        by_cases h3 : white = black <;> simp_all [hg3, Tally.mk.injEq]
    · rw [if_neg hww, if_neg hwb,
        tallyLookup_double_update _ _ _ _ _ _ hw3 hb3]
      by_cases h1 : n = black <;> by_cases h2 : n = white <;>
        by_cases h3 : black = white <;> simp_all [hg3, Tally.mk.injEq]

theorem tallyStep_invalid (m : TallyMap) (g : RawGame)
    (h : gameWhite g = none ∨ gameBlack g = none) : tallyStep m g = m := by
  unfold tallyStep
  rcases h with h | h
  · rw [h]
  · rw [h]
    cases hw : gameWhite g <;> rfl

theorem keys_tmUpdate (m : TallyMap) (k : String) (f : Tally → Tally) :
    (tmUpdate m k f).map Prod.fst = m.map Prod.fst := by
  induction m with
  | nil => rfl
  | cons p rest ih =>
    obtain ⟨pk, pv⟩ := p
    by_cases h : pk = k <;> simp_all [tmUpdate]

theorem keys_nodup_tmEnsure (m : TallyMap) (k : String)
    (h : (m.map Prod.fst).Nodup) : ((tmEnsure m k).map Prod.fst).Nodup := by
  unfold tmEnsure
  by_cases hk : (List.lookup k m).isSome
  · simpa [hk] using h
  · have hk2 : List.lookup k m = none := Option.not_isSome_iff_eq_none.mp hk
    rw [List.lookup_eq_none_iff] at hk2
    simp only [hk, Bool.false_eq_true, if_false, List.map_append, List.map_cons,
      List.map_nil]
    rw [List.nodup_append]
    refine ⟨h, List.nodup_singleton k, ?_⟩
    intro a ha hb
    simp only [List.mem_singleton] at hb
    subst hb
    obtain ⟨p, hp, hfst⟩ := List.mem_map.mp ha
    have := hk2 p hp
    simp only [bne_iff_ne, ne_eq] at this
    exact this hfst.symm

theorem keys_nodup_tallyStep (m : TallyMap) (g : RawGame)
    (h : (m.map Prod.fst).Nodup) : ((tallyStep m g).map Prod.fst).Nodup := by
  unfold tallyStep
  cases hw : gameWhite g with
  | none => exact h
  | some white =>
    cases hb : gameBlack g with
    | none => exact h
    | some black =>
      have h1 := keys_nodup_tmEnsure (tmEnsure m white) black
        (keys_nodup_tmEnsure m white h)
      dsimp only
      split <;> [skip; split] <;> simp [keys_tmUpdate, h1]

theorem tallySum_cons (f : Tally → Nat) (pk : String) (pv : Tally) (rest : TallyMap) :
    tallySum f ((pk, pv) :: rest) = f pv + tallySum f rest := by
  simp [tallySum]

theorem tmUpdate_cons (pk : String) (pv : Tally) (rest : TallyMap) (k : String)
    (g : Tally → Tally) :
    tmUpdate ((pk, pv) :: rest) k g =
      (if pk = k then (pk, g pv) else (pk, pv)) :: tmUpdate rest k g := rfl

theorem tmUpdate_eq_of_absent (m : TallyMap) (k : String) (f : Tally → Tally)
    (h : ∀ p ∈ m, p.1 ≠ k) : tmUpdate m k f = m := by
  induction m with
  | nil => rfl
  | cons p rest ih =>
    obtain ⟨pk, pv⟩ := p
    rw [tmUpdate_cons, if_neg (h (pk, pv) (List.mem_cons_self _ _)),
      ih fun q hq => h q (List.mem_cons_of_mem _ hq)]

theorem tallySum_tmEnsure (f : Tally → Nat) (hf : f zeroTally = 0) (m : TallyMap)
    (k : String) : tallySum f (tmEnsure m k) = tallySum f m := by
  unfold tmEnsure
  split
  · rfl
  · simp [tallySum, hf]

theorem tallySum_tmUpdate (f : Tally → Nat) (m : TallyMap) (k : String)
    (g : Tally → Tally) (t : Tally) (hnd : (m.map Prod.fst).Nodup)
    (ht : List.lookup k m = some t) :
    tallySum f (tmUpdate m k g) + f t = tallySum f m + f (g t) := by
  induction m with
  | nil => simp at ht
  | cons p rest ih =>
    obtain ⟨pk, pv⟩ := p
    simp only [List.map_cons, List.nodup_cons] at hnd
    by_cases h : k = pk
    · subst h
      rw [List.lookup_cons_self] at ht
      injection ht with ht
      subst ht
      have habs : tmUpdate rest k g = rest :=
        tmUpdate_eq_of_absent rest k g fun q hq hqk =>
          hnd.1 (List.mem_map.mpr ⟨q, hq, hqk⟩)
      rw [tmUpdate_cons, if_pos rfl, habs, tallySum_cons, tallySum_cons]
      omega
    · have ht2 : List.lookup k rest = some t := by
        rw [List.lookup_cons] at ht
        simpa [beq_false_of_ne h] using ht
      have hrec := ih hnd.2 ht2
      rw [tmUpdate_cons, if_neg fun hh => h hh.symm, tallySum_cons, tallySum_cons]
      omega

theorem tallySum_tmUpdate_keep (f : Tally → Nat) (m : TallyMap) (k : String)
    (g : Tally → Tally) (hnd : (m.map Prod.fst).Nodup)
    (hk : (List.lookup k m).isSome) (hfg : ∀ t, f (g t) = f t) :
    tallySum f (tmUpdate m k g) = tallySum f m := by
  obtain ⟨t, ht⟩ := Option.isSome_iff_exists.mp hk
  have h := tallySum_tmUpdate f m k g t hnd ht
  rw [hfg t] at h
  omega

theorem tallySum_tmUpdate_incr (f : Tally → Nat) (m : TallyMap) (k : String)
    (g : Tally → Tally) (hnd : (m.map Prod.fst).Nodup)
    (hk : (List.lookup k m).isSome) (hfg : ∀ t, f (g t) = f t + 1) :
    tallySum f (tmUpdate m k g) = tallySum f m + 1 := by
  obtain ⟨t, ht⟩ := Option.isSome_iff_exists.mp hk
  have h := tallySum_tmUpdate f m k g t hnd ht
  rw [hfg t] at h
  omega

theorem tallySum_tallyStep (m : TallyMap) (g : RawGame) (white black : String)
    (hw : gameWhite g = some white) (hb : gameBlack g = some black)
    (hnd : (m.map Prod.fst).Nodup) :
    tallySum Tally.w (tallyStep m g)
        = tallySum Tally.w m
          + (if g.winner = some "white" ∨ g.winner = some "black" then 1 else 0) ∧
    tallySum Tally.l (tallyStep m g)
        = tallySum Tally.l m
          + (if g.winner = some "white" ∨ g.winner = some "black" then 1 else 0) ∧
    tallySum Tally.d (tallyStep m g)
        = tallySum Tally.d m
          + (if g.winner = some "white" ∨ g.winner = some "black" then 0 else 2) := by
  have hnd1 : (((tmEnsure (tmEnsure m white) black)).map Prod.fst).Nodup :=
    keys_nodup_tmEnsure _ black (keys_nodup_tmEnsure m white hnd)
  have hw1 : (List.lookup white (tmEnsure (tmEnsure m white) black)).isSome :=
    lookup_tmEnsure_isSome_mono _ _ _ (lookup_tmEnsure_self_isSome m white)
  have hb1 : (List.lookup black (tmEnsure (tmEnsure m white) black)).isSome :=
    lookup_tmEnsure_self_isSome _ _
  have hnd2 : ((tmUpdate (tmEnsure (tmEnsure m white) black) white
      (fun t => { t with games := t.games + 1 })).map Prod.fst).Nodup := by
    rw [keys_tmUpdate]; exact hnd1
  have hnd3 : ((tmUpdate (tmUpdate (tmEnsure (tmEnsure m white) black) white
      (fun t => { t with games := t.games + 1 })) black
      (fun t => { t with games := t.games + 1 })).map Prod.fst).Nodup := by
    rw [keys_tmUpdate, keys_tmUpdate]; exact hnd1
  have hb2 : (List.lookup black (tmUpdate (tmEnsure (tmEnsure m white) black) white
      (fun t => { t with games := t.games + 1 }))).isSome := by
    rw [lookup_tmUpdate_isSome]; exact hb1
  have hw3 : (List.lookup white (tmUpdate (tmUpdate (tmEnsure (tmEnsure m white) black) white
      (fun t => { t with games := t.games + 1 })) black
      (fun t => { t with games := t.games + 1 }))).isSome := by
    rw [lookup_tmUpdate_isSome, lookup_tmUpdate_isSome]; exact hw1
  have hb3 : (List.lookup black (tmUpdate (tmUpdate (tmEnsure (tmEnsure m white) black) white
      (fun t => { t with games := t.games + 1 })) black
      (fun t => { t with games := t.games + 1 }))).isSome := by
    rw [lookup_tmUpdate_isSome, lookup_tmUpdate_isSome]; exact hb1
  have base : ∀ f : Tally → Nat, f zeroTally = 0 →
      (∀ t, f { t with games := t.games + 1 } = f t) →
      tallySum f (tmUpdate (tmUpdate (tmEnsure (tmEnsure m white) black) white
        (fun t => { t with games := t.games + 1 })) black
        (fun t => { t with games := t.games + 1 })) = tallySum f m := by
    intro f h0 hg
    rw [tallySum_tmUpdate_keep f _ black _ hnd2 hb2 hg,
      tallySum_tmUpdate_keep f _ white _ hnd1 hw1 hg,
      tallySum_tmEnsure f h0, tallySum_tmEnsure f h0]
  unfold tallyStep
  rw [hw, hb]
  dsimp only
  by_cases hww : g.winner = some "white"
  · rw [hww, if_pos rfl]
    have hndA : ((tmUpdate (tmUpdate (tmUpdate (tmEnsure (tmEnsure m white) black) white
        (fun t => { t with games := t.games + 1 })) black
        (fun t => { t with games := t.games + 1 })) white
        (fun t => { t with w := t.w + 1 })).map Prod.fst).Nodup := by
      rw [keys_tmUpdate]; exact hnd3
    have hbA : (List.lookup black (tmUpdate (tmUpdate (tmUpdate
        (tmEnsure (tmEnsure m white) black) white
        (fun t => { t with games := t.games + 1 })) black
        (fun t => { t with games := t.games + 1 })) white
        (fun t => { t with w := t.w + 1 }))).isSome := by
      rw [lookup_tmUpdate_isSome]; exact hb3
    refine ⟨?_, ?_, ?_⟩
    · rw [tallySum_tmUpdate_keep Tally.w _ black (fun t => { t with l := t.l + 1 }) hndA hbA
          fun t => rfl,
        tallySum_tmUpdate_incr Tally.w _ white (fun t => { t with w := t.w + 1 }) hnd3 hw3
          fun t => rfl,
        base Tally.w rfl fun t => rfl]
      simp
    · rw [tallySum_tmUpdate_incr Tally.l _ black (fun t => { t with l := t.l + 1 }) hndA hbA
          fun t => rfl,
        tallySum_tmUpdate_keep Tally.l _ white (fun t => { t with w := t.w + 1 }) hnd3 hw3
          fun t => rfl,
        base Tally.l rfl fun t => rfl]
      simp
    · rw [tallySum_tmUpdate_keep Tally.d _ black (fun t => { t with l := t.l + 1 }) hndA hbA
          fun t => rfl,
        tallySum_tmUpdate_keep Tally.d _ white (fun t => { t with w := t.w + 1 }) hnd3 hw3
          fun t => rfl,
        base Tally.d rfl fun t => rfl]
      simp
  · by_cases hwb : g.winner = some "black"
    · rw [hwb, if_neg (by decide), if_pos rfl]
      have hndA : ((tmUpdate (tmUpdate (tmUpdate (tmEnsure (tmEnsure m white) black) white
          (fun t => { t with games := t.games + 1 })) black
          (fun t => { t with games := t.games + 1 })) black
          (fun t => { t with w := t.w + 1 })).map Prod.fst).Nodup := by
        rw [keys_tmUpdate]; exact hnd3
      have hwA : (List.lookup white (tmUpdate (tmUpdate (tmUpdate
          (tmEnsure (tmEnsure m white) black) white
          (fun t => { t with games := t.games + 1 })) black
          (fun t => { t with games := t.games + 1 })) black
          (fun t => { t with w := t.w + 1 }))).isSome := by
        rw [lookup_tmUpdate_isSome]; exact hw3
      refine ⟨?_, ?_, ?_⟩
      · rw [tallySum_tmUpdate_keep Tally.w _ white (fun t => { t with l := t.l + 1 }) hndA hwA
            fun t => rfl,
          tallySum_tmUpdate_incr Tally.w _ black (fun t => { t with w := t.w + 1 }) hnd3 hb3
            fun t => rfl,
          base Tally.w rfl fun t => rfl]
        simp
      · rw [tallySum_tmUpdate_incr Tally.l _ white (fun t => { t with l := t.l + 1 }) hndA hwA
            fun t => rfl,
          tallySum_tmUpdate_keep Tally.l _ black (fun t => { t with w := t.w + 1 }) hnd3 hb3
            fun t => rfl,
          base Tally.l rfl fun t => rfl]
        simp
      · rw [tallySum_tmUpdate_keep Tally.d _ white (fun t => { t with l := t.l + 1 }) hndA hwA
            fun t => rfl,
          tallySum_tmUpdate_keep Tally.d _ black (fun t => { t with w := t.w + 1 }) hnd3 hb3
            fun t => rfl,
          base Tally.d rfl fun t => rfl]
        simp
    · rw [if_neg hww, if_neg hwb]
      have hndA : ((tmUpdate (tmUpdate (tmUpdate (tmEnsure (tmEnsure m white) black) white
          (fun t => { t with games := t.games + 1 })) black
          (fun t => { t with games := t.games + 1 })) white
          (fun t => { t with d := t.d + 1 })).map Prod.fst).Nodup := by
        rw [keys_tmUpdate]; exact hnd3
      have hbA : (List.lookup black (tmUpdate (tmUpdate (tmUpdate
          (tmEnsure (tmEnsure m white) black) white
          (fun t => { t with games := t.games + 1 })) black
          (fun t => { t with games := t.games + 1 })) white
          (fun t => { t with d := t.d + 1 }))).isSome := by
        rw [lookup_tmUpdate_isSome]; exact hb3
      refine ⟨?_, ?_, ?_⟩
      · rw [tallySum_tmUpdate_keep Tally.w _ black (fun t => { t with d := t.d + 1 }) hndA hbA
            fun t => rfl,
          tallySum_tmUpdate_keep Tally.w _ white (fun t => { t with d := t.d + 1 }) hnd3 hw3
            fun t => rfl,
          base Tally.w rfl fun t => rfl]
        simp [hww, hwb]
      · rw [tallySum_tmUpdate_keep Tally.l _ black (fun t => { t with d := t.d + 1 }) hndA hbA
            fun t => rfl,
          tallySum_tmUpdate_keep Tally.l _ white (fun t => { t with d := t.d + 1 }) hnd3 hw3
            fun t => rfl,
          base Tally.l rfl fun t => rfl]
        simp [hww, hwb]
      · rw [tallySum_tmUpdate_incr Tally.d _ black (fun t => { t with d := t.d + 1 }) hndA hbA
            fun t => rfl,
          tallySum_tmUpdate_incr Tally.d _ white (fun t => { t with d := t.d + 1 }) hnd3 hw3
            fun t => rfl,
          base Tally.d rfl fun t => rfl]
        simp [hww, hwb]

theorem buildTally_sums_from (gs : List RawGame) : ∀ m : TallyMap,
    (m.map Prod.fst).Nodup →
    ((gs.foldl tallyStep m).map Prod.fst).Nodup ∧
    ∃ k j : Nat,
      tallySum Tally.w (gs.foldl tallyStep m) = tallySum Tally.w m + k ∧
      tallySum Tally.l (gs.foldl tallyStep m) = tallySum Tally.l m + k ∧
      tallySum Tally.d (gs.foldl tallyStep m) = tallySum Tally.d m + 2 * j := by
  induction gs with
  | nil =>
    intro m h
    exact ⟨h, 0, 0, by simp, by simp, by simp⟩
  | cons g gs ih =>
    intro m h
    rw [List.foldl_cons]
    cases hw : gameWhite g with
    | none =>
      rw [tallyStep_invalid m g (Or.inl hw)]
      exact ih m h
    | some white =>
      cases hb : gameBlack g with
      | none =>
        rw [tallyStep_invalid m g (Or.inr hb)]
        exact ih m h
      | some black =>
        have hstep := tallySum_tallyStep m g white black hw hb h
        have hnd2 := keys_nodup_tallyStep m g h
        obtain ⟨hnd3, k, j, e1, e2, e3⟩ := ih (tallyStep m g) hnd2
        refine ⟨hnd3, ?_⟩
        by_cases hdec : g.winner = some "white" ∨ g.winner = some "black"
        · simp only [hdec, if_true] at hstep
          exact ⟨k + 1, j, by omega, by omega, by omega⟩
        · simp only [hdec, if_false] at hstep
          exact ⟨k, j + 1, by omega, by omega, by omega⟩

/-- C8: over any raw game list, the total of `wins` across all players of the
built tally equals the total of `losses`, and the total of `draws` is even. -/
theorem c8_wins_eq_losses_draws_even (gs : List RawGame) :
    tallySum Tally.w (buildTally gs) = tallySum Tally.l (buildTally gs) ∧
    2 ∣ tallySum Tally.d (buildTally gs) := by
  obtain ⟨-, k, j, e1, e2, e3⟩ := buildTally_sums_from gs [] (by simp)
  unfold buildTally
  refine ⟨?_, ?_⟩
  · rw [e1, e2]
    simp [tallySum]
  · rw [e3]
    simp only [tallySum, List.map_nil, List.sum_nil, Nat.zero_add]
    exact Dvd.intro j rfl

/-- C4: a game whose white or black identity does not resolve is skipped
entirely (the tally map is unchanged, so removing the game from the list
changes nothing); a resolvable game increments `gamesPlayed` for both sides
and adjusts wins/losses/draws by the winner marker: `"white"` gives white a
win and black a loss, `"black"` the reverse, anything else (or absent) gives
both sides a draw. -/
theorem c4_tally_builder_step (m : TallyMap) (g : RawGame) :
    (gameWhite g = none ∨ gameBlack g = none →
      tallyStep m g = m ∧
      ∀ gs1 gs2 : List RawGame,
        (gs1 ++ g :: gs2).foldl tallyStep m = (gs1 ++ gs2).foldl tallyStep m) ∧
    (∀ white black : String, gameWhite g = some white → gameBlack g = some black →
      ∀ n : String, tallyLookup (tallyStep m g) n =
        { w := (tallyLookup m n).w
            + (if g.winner = some "white" ∧ n = white then 1 else 0)
            + (if g.winner = some "black" ∧ n = black then 1 else 0),
          d := (tallyLookup m n).d
            + (if g.winner ≠ some "white" ∧ g.winner ≠ some "black" ∧ n = white then 1 else 0)
            + (if g.winner ≠ some "white" ∧ g.winner ≠ some "black" ∧ n = black then 1 else 0),
          l := (tallyLookup m n).l
            + (if g.winner = some "white" ∧ n = black then 1 else 0)
            + (if g.winner = some "black" ∧ n = white then 1 else 0),
          games := (tallyLookup m n).games + (if n = white then 1 else 0)
            + (if n = black then 1 else 0) }) := by
  constructor
  · intro h
    refine ⟨tallyStep_invalid m g h, fun gs1 gs2 => ?_⟩
    rw [List.foldl_append, List.foldl_append, List.foldl_cons, tallyStep_invalid _ g h]
  · intro white black hw hb n
    exact tallyLookup_tallyStep m g white black n hw hb

/-- Witness for C4: a game with no white identity is skipped; a decisive
game between `"a"` and `"b"` updates both tallies as specified. -/
theorem c4_tally_builder_step_witness :
    tallyStep [] ⟨none, none, some "b", none, some "white"⟩ = [] ∧
    tallyLookup (tallyStep [] ⟨some "a", none, some "b", none, some "white"⟩) "a"
      = ⟨1, 0, 0, 1⟩ ∧
    tallyLookup (tallyStep [] ⟨some "a", none, some "b", none, some "white"⟩) "b"
      = ⟨0, 0, 1, 1⟩ := by
  refine ⟨((c4_tally_builder_step []
      ⟨none, none, some "b", none, some "white"⟩).1 (Or.inl rfl)).1, ?_, ?_⟩
  · rw [(c4_tally_builder_step []
      ⟨some "a", none, some "b", none, some "white"⟩).2 "a" "b" rfl rfl "a"]
    decide
  · rw [(c4_tally_builder_step []
      ⟨some "a", none, some "b", none, some "white"⟩).2 "a" "b" rfl rfl "b"]
    decide

theorem applyContrib_name (r : AggRecord) (c : Contribution) :
    (applyContrib r c).name = r.name := rfl

theorem aggFind_aggInsert_self (m : AggMap) (n : String) :
    aggFind (aggInsert m n) n = some ((aggFind m n).getD (freshRecord n)) := by
  unfold aggInsert
  by_cases h : (aggFind m n).isSome
  · obtain ⟨r, hr⟩ := Option.isSome_iff_exists.mp h
    simp [h, hr]
  · have h2 : aggFind m n = none := Option.not_isSome_iff_eq_none.mp h
    simp only [h, Bool.false_eq_true, if_false]
    unfold aggFind at h2 ⊢
    rw [List.find?_append, h2]
    simp [freshRecord]

theorem aggFind_aggInsert_ne (m : AggMap) (n n2 : String) (h : n2 ≠ n) :
    aggFind (aggInsert m n) n2 = aggFind m n2 := by
  unfold aggInsert
  split
  · rfl
  · unfold aggFind
    rw [List.find?_append]
    have h2 : List.find? (fun r => r.name == n2) [freshRecord n] = none := by
      simp [freshRecord, beq_false_of_ne (Ne.symm h)]
    rw [h2, Option.or_none]

theorem aggFind_aggUpdate_self (m : AggMap) (n : String) (c : Contribution) :
    aggFind (aggUpdate m n c) n = (aggFind m n).map fun r => applyContrib r c := by
  induction m with
  | nil => rfl
  | cons r rest ih =>
    unfold aggFind aggUpdate at ih ⊢
    simp only [List.map_cons]
    by_cases h : r.name = n
    · rw [if_pos (by simp [h] : (r.name == n) = true), List.find?_cons, List.find?_cons]
      have e1 : ((applyContrib r c).name == n) = true := by
        rw [applyContrib_name]; simp [h]
      have e2 : (r.name == n) = true := by simp [h]
      simp only [e1, e2]
      rfl
    · rw [if_neg (by simp [h]), List.find?_cons, List.find?_cons]
      have e2 : (r.name == n) = false := by simp [h]
      simp only [e2]
      exact ih

theorem aggFind_aggUpdate_ne (m : AggMap) (n n2 : String) (c : Contribution)
    (h : n2 ≠ n) : aggFind (aggUpdate m n c) n2 = aggFind m n2 := by
  induction m with
  | nil => rfl
  | cons r rest ih =>
    unfold aggFind aggUpdate at ih ⊢
    simp only [List.map_cons]
    by_cases h2 : r.name = n2
    · have h3 : ¬r.name = n := fun hh => h (by rw [← h2, hh])
      rw [if_neg (by simp [h3]), List.find?_cons, List.find?_cons]
      have e2 : (r.name == n2) = true := by simp [h2]
      simp only [e2]
    · rw [List.find?_cons, List.find?_cons]
      have e2 : (r.name == n2) = false := by simp [h2]
      by_cases h4 : r.name = n
      · rw [if_pos (by simp [h4] : (r.name == n) = true)]
        have e1 : ((applyContrib r c).name == n2) = false := by
          rw [applyContrib_name]; simp [h2]
        simp only [e1, e2]
        exact ih
      · rw [if_neg (by simp [h4])]
        simp only [e2]
        exact ih

theorem aggFind_processRow_resolved (tl : TallyMap) (m : AggMap) (r : ResultRow)
    (n : String) (hres : resolveName r = some n) :
    aggFind (processRow tl m r) n =
      some (applyContrib ((aggFind m n).getD (freshRecord n)) (rowContribution tl n r)) := by
  unfold processRow
  rw [hres]
  rw [aggFind_aggUpdate_self, aggFind_aggInsert_self]
  rfl

theorem aggFind_processRow_other (tl : TallyMap) (m : AggMap) (r : ResultRow)
    (n : String) (h : resolveName r ≠ some n) :
    aggFind (processRow tl m r) n = aggFind m n := by
  unfold processRow
  cases hres : resolveName r with
  | none => rfl
  | some n2 =>
    have hne : n ≠ n2 := fun hh => h (by rw [hres, hh])
    rw [aggFind_aggUpdate_ne _ _ _ _ hne, aggFind_aggInsert_ne _ _ _ hne]

theorem aggFind_foldl_aggStep (ps : List (TallyMap × ResultRow)) :
    ∀ (m : AggMap) (n : String),
    aggFind (ps.foldl aggStep m) n =
      match aggFind m n with
      | some rec => some (applyContribs rec (contribsOf ps n))
      | none =>
        match contribsOf ps n with
        | [] => none
        | cs => some (applyContribs (freshRecord n) cs) := by
  induction ps with
  | nil =>
    intro m n
    cases h : aggFind m n <;> simp [h, contribsOf, applyContribs]
  | cons p ps ih =>
    intro m n
    rw [List.foldl_cons]
    cases hres : resolveName p.2 with
    | none =>
      have hstep : aggStep m p = m := by
        unfold aggStep processRow
        rw [hres]
      have hc : contribsOf (p :: ps) n = contribsOf ps n := by
        unfold contribsOf
        rw [List.filterMap_cons]
        simp [hres]
      rw [hstep, ih, hc]
    | some n2 =>
      by_cases hn : n2 = n
      · subst hn
        have hstep : aggFind (aggStep m p) n2 =
            some (applyContrib ((aggFind m n2).getD (freshRecord n2))
              (rowContribution p.1 n2 p.2)) :=
          aggFind_processRow_resolved p.1 m p.2 n2 hres
        have hc : contribsOf (p :: ps) n2 =
            rowContribution p.1 n2 p.2 :: contribsOf ps n2 := by
          unfold contribsOf
          rw [List.filterMap_cons]
          simp [hres]
        rw [ih, hstep, hc]
        cases hbase : aggFind m n2 <;> simp [applyContribs]
      · have hstep : aggFind (aggStep m p) n = aggFind m n :=
          aggFind_processRow_other p.1 m p.2 n
            (by rw [hres]; exact fun hh => hn (Option.some.inj hh))
        have hc : contribsOf (p :: ps) n = contribsOf ps n := by
          unfold contribsOf
          rw [List.filterMap_cons]
          simp [hres, hn]
        rw [ih, hstep, hc]

theorem applyContribs_fields (cs : List Contribution) : ∀ base : AggRecord,
    applyContribs base cs =
      { name := base.name,
        points := base.points + (cs.map Contribution.points).sum,
        w := base.w + (cs.map Contribution.w).sum,
        d := base.d + (cs.map Contribution.d).sum,
        l := base.l + (cs.map Contribution.l).sum,
        tournaments := base.tournaments + (cs.map Contribution.tournaments).sum,
        perfSum := base.perfSum + (cs.map Contribution.perfSum).sum,
        perfWeight := base.perfWeight + (cs.map Contribution.perfWeight).sum } := by
  induction cs with
  | nil => intro base; simp [applyContribs]
  | cons c cs ih =>
    intro base
    unfold applyContribs at ih ⊢
    rw [List.foldl_cons, ih]
    simp only [applyContrib, List.map_cons, List.sum_cons, AggRecord.mk.injEq]
    exact ⟨trivial, by ring, by omega, by omega, by omega, by omega, by ring, by ring⟩

theorem foldl_flatMap_eq {α β γ : Type} (f : β → γ → β) (g : α → List γ)
    (l : List α) : ∀ init : β,
    (l.flatMap g).foldl f init = l.foldl (fun acc a => (g a).foldl f acc) init := by
  induction l with
  | nil => intro init; rfl
  | cons a l ih =>
    intro init
    rw [List.flatMap_cons, List.foldl_append, List.foldl_cons, ih]

theorem aggregateAll_eq_foldl (filtered : List Tournament)
    (resultsBy : List (String × List ResultRow)) (gamesBy : List (String × TallyMap)) :
    aggregateAll filtered resultsBy gamesBy =
      (flatRows filtered resultsBy gamesBy).foldl aggStep [] := by
  unfold aggregateAll flatRows
  rw [foldl_flatMap_eq]
  congr 1
  funext m t
  unfold processTournament
  rw [List.foldl_map]
  rfl

theorem contribsOf_eq_filter (ps : List (TallyMap × ResultRow)) (n : String) :
    contribsOf ps n = (ps.filter fun p => resolveName p.2 == some n).map
      fun p => rowContribution p.1 n p.2 := by
  induction ps with
  | nil => rfl
  | cons p ps ih =>
    unfold contribsOf at ih ⊢
    rw [List.filterMap_cons, List.filter_cons]
    cases hres : resolveName p.2 with
    | none => simpa [hres] using ih
    | some m2 =>
      by_cases hm : m2 = n
      · subst hm
        simpa [hres] using ih
      · simp only [hres, beq_iff_eq, Option.some.injEq, hm, if_neg,
          Bool.false_eq_true]
        simpa [hm] using ih

theorem sum_map_ones {α : Type} (l : List α) : (l.map fun _ => (1 : Nat)).sum = l.length := by
  induction l with
  | nil => rfl
  | cons a l ih => simp [ih, Nat.add_comm]

theorem aggNames_aggUpdate (m : AggMap) (n : String) (c : Contribution) :
    (aggUpdate m n c).map AggRecord.name = m.map AggRecord.name := by
  induction m with
  | nil => rfl
  | cons r rest ih =>
    unfold aggUpdate at ih ⊢
    simp only [List.map_cons, ih, List.cons.injEq, and_true]
    split
    · rw [applyContrib_name]
    · rfl

theorem aggNames_nodup_processRow (tl : TallyMap) (m : AggMap) (r : ResultRow)
    (h : (m.map AggRecord.name).Nodup) :
    ((processRow tl m r).map AggRecord.name).Nodup := by
  unfold processRow
  cases hres : resolveName r with
  | none => exact h
  | some n =>
    rw [aggNames_aggUpdate]
    unfold aggInsert
    split
    · exact h
    · rename_i hfind
      have h2 : aggFind m n = none := by
        cases hf : aggFind m n with
        | none => rfl
        | some v => rw [hf] at hfind; simp at hfind
      have h3 : n ∉ m.map AggRecord.name := by
        intro hmem
        obtain ⟨rec, hrec, hname⟩ := List.mem_map.mp hmem
        unfold aggFind at h2
        rw [List.find?_eq_none] at h2
        exact h2 rec hrec (by simp [hname])
      rw [List.map_append]
      simp only [List.map_cons, List.map_nil, freshRecord]
      rw [List.nodup_append]
      refine ⟨h, List.nodup_singleton _, fun a ha hb => ?_⟩
      simp only [List.mem_singleton] at hb
      subst hb
      exact h3 ha

theorem aggNames_nodup_foldl (ps : List (TallyMap × ResultRow)) : ∀ m : AggMap,
    (m.map AggRecord.name).Nodup → (((ps.foldl aggStep m)).map AggRecord.name).Nodup := by
  induction ps with
  | nil => exact fun m h => h
  | cons p ps ih =>
    intro m h
    rw [List.foldl_cons]
    exact ih _ (aggNames_nodup_processRow p.1 m p.2 h)

theorem aggregateAll_names_nodup (filtered : List Tournament)
    (resultsBy : List (String × List ResultRow)) (gamesBy : List (String × TallyMap)) :
    ((aggregateAll filtered resultsBy gamesBy).map AggRecord.name).Nodup := by
  rw [aggregateAll_eq_foldl]
  exact aggNames_nodup_foldl _ [] (by simp)

theorem aggFind_of_mem (m : AggMap) (hnd : (m.map AggRecord.name).Nodup)
    (rec : AggRecord) (hm : rec ∈ m) : aggFind m rec.name = some rec := by
  induction m with
  | nil => cases hm
  | cons r rest ih =>
    simp only [List.map_cons, List.nodup_cons] at hnd
    rcases List.mem_cons.mp hm with rfl | hm2
    · unfold aggFind
      rw [List.find?_cons_of_pos _ (by simp)]
    · have hne : r.name ≠ rec.name := by
        intro he
        exact hnd.1 (he ▸ List.mem_map.mpr ⟨rec, hm2, rfl⟩)
      unfold aggFind at ih ⊢
      rw [List.find?_cons_of_neg _ (by simp [hne])]
      exact ih hnd.2 hm2

theorem mem_jsObjectOrder (m : AggMap) (rec : AggRecord) :
    rec ∈ jsObjectOrder m ↔ rec ∈ m := by
  unfold jsObjectOrder
  rw [List.mem_append, List.mem_insertionSort, List.mem_filter, List.mem_filter]
  constructor
  · rintro (⟨h1, -⟩ | ⟨h1, -⟩) <;> exact h1
  · intro h1
    by_cases h : (arrayIndexKey rec.name).isSome
    · exact Or.inl ⟨h1, h⟩
    · exact Or.inr ⟨h1, by simp [Option.not_isSome_iff_eq_none.mp h]⟩

theorem jsObjectOrder_perm (m : AggMap) : (jsObjectOrder m).Perm m := by
  unfold jsObjectOrder
  have hs := List.perm_insertionSort idxLe (m.filter fun r => (arrayIndexKey r.name).isSome)
  refine (hs.append_right _).trans ?_
  have he : (m.filter fun r => (arrayIndexKey r.name).isNone) =
      m.filter fun r => !(arrayIndexKey r.name).isSome := by
    apply List.filter_congr
    intro a ha
    cases harr : arrayIndexKey a.name <;> rfl
  rw [he]
  exact List.filter_append_perm _ m

/-- C3: folding the same per-tournament rows and tallies over any permutation
of the filtered tournament sequence yields the same aggregate record (all
seven cumulative fields) for every player. -/
theorem c3_fold_order_invariant (ts ts2 : List Tournament) (hperm : ts.Perm ts2)
    (resultsBy : List (String × List ResultRow)) (gamesBy : List (String × TallyMap))
    (n : String) :
    aggFind (aggregateAll ts resultsBy gamesBy) n =
      aggFind (aggregateAll ts2 resultsBy gamesBy) n := by
  rw [aggregateAll_eq_foldl, aggregateAll_eq_foldl,
    aggFind_foldl_aggStep, aggFind_foldl_aggStep]
  have hp : (flatRows ts resultsBy gamesBy).Perm (flatRows ts2 resultsBy gamesBy) :=
    hperm.flatMap_right _
  have hc : (contribsOf (flatRows ts resultsBy gamesBy) n).Perm
      (contribsOf (flatRows ts2 resultsBy gamesBy) n) := hp.filterMap _
  have e0 : aggFind ([] : AggMap) n = none := rfl
  rw [e0]
  cases h1 : contribsOf (flatRows ts resultsBy gamesBy) n with
  | nil =>
    rw [h1] at hc
    rw [hc.symm.eq_nil]
  | cons c cs =>
    rw [h1] at hc
    cases h2 : contribsOf (flatRows ts2 resultsBy gamesBy) n with
    | nil =>
      rw [h2] at hc
      exact absurd hc.eq_nil (by simp)
    | cons c2 cs2 =>
      rw [h2] at hc
      have hq : ∀ f : Contribution → ℚ,
          ((c :: cs).map f).sum = ((c2 :: cs2).map f).sum := fun f => (hc.map f).sum_eq
      have hn2 : ∀ f : Contribution → Nat,
          ((c :: cs).map f).sum = ((c2 :: cs2).map f).sum := fun f => (hc.map f).sum_eq
      show some (applyContribs (freshRecord n) (c :: cs)) =
        some (applyContribs (freshRecord n) (c2 :: cs2))
      rw [applyContribs_fields, applyContribs_fields]
      simp only [Option.some.injEq, AggRecord.mk.injEq]
      exact ⟨trivial, by rw [hq], by rw [hn2], by rw [hn2], by rw [hn2], by rw [hn2],
        by rw [hq], by rw [hq]⟩

/-- Witness for C3: swapping two concrete tournaments leaves the aggregate
record of player `"a"` unchanged. -/
theorem c3_fold_order_invariant_witness :
    aggFind (aggregateAll
        [⟨"t1", "X", 0, none, none⟩, ⟨"t2", "Y", 0, none, none⟩]
        [("t1", [⟨some "a", none, none, none, some (some 3), none, none, none, none⟩]),
         ("t2", [⟨some "a", none, none, none, some (some 4), none, none, none, none⟩])]
        []) "a" =
      aggFind (aggregateAll
        [⟨"t2", "Y", 0, none, none⟩, ⟨"t1", "X", 0, none, none⟩]
        [("t1", [⟨some "a", none, none, none, some (some 3), none, none, none, none⟩]),
         ("t2", [⟨some "a", none, none, none, some (some 4), none, none, none, none⟩])]
        []) "a" :=
  c3_fold_order_invariant _ _ (List.Perm.swap _ _ _) _ _ _

/-- C10: a player's final `tournaments` count equals the number of
ResultRows across all filtered tournaments whose identity resolves to that
player — duplicate rows of one tournament are counted (and their points
added) once per row, never de-duplicated. -/
theorem c10_tournaments_counts_rows (filtered : List Tournament)
    (resultsBy : List (String × List ResultRow)) (gamesBy : List (String × TallyMap))
    (n : String) :
    ((aggFind (aggregateAll filtered resultsBy gamesBy) n).map AggRecord.tournaments).getD 0
      = ((flatRows filtered resultsBy gamesBy).filter
          fun p => resolveName p.2 == some n).length ∧
    ((aggFind (aggregateAll filtered resultsBy gamesBy) n).map AggRecord.points).getD 0
      = (((flatRows filtered resultsBy gamesBy).filter
          fun p => resolveName p.2 == some n).map fun p => rowPoints p.2).sum := by
  rw [aggregateAll_eq_foldl, aggFind_foldl_aggStep]
  have e0 : aggFind ([] : AggMap) n = none := rfl
  rw [e0]
  have h3 := contribsOf_eq_filter (flatRows filtered resultsBy gamesBy) n
  cases h1 : contribsOf (flatRows filtered resultsBy gamesBy) n with
  | nil =>
    rw [h1] at h3
    have h4 : ((flatRows filtered resultsBy gamesBy).filter
        fun p => resolveName p.2 == some n) = [] := by
      rcases List.map_eq_nil_iff.mp h3.symm with h5
      exact h5
    rw [h4]
    simp
  | cons c cs =>
    rw [h1] at h3
    show ((some (applyContribs (freshRecord n) (c :: cs))).map AggRecord.tournaments).getD 0
        = _ ∧ ((some (applyContribs (freshRecord n) (c :: cs))).map AggRecord.points).getD 0
        = _
    rw [applyContribs_fields]
    constructor
    · simp only [Option.map_some', Option.getD_some]
      rw [h3, List.map_map]
      have h6 : (Contribution.tournaments ∘ fun p : TallyMap × ResultRow =>
          rowContribution p.1 n p.2) = fun _ => (1 : Nat) := rfl
      rw [h6, sum_map_ones]
      simp [freshRecord]
    · simp only [Option.map_some', Option.getD_some]
      rw [h3, List.map_map]
      have h6 : (Contribution.points ∘ fun p : TallyMap × ResultRow =>
          rowContribution p.1 n p.2) = fun p : TallyMap × ResultRow => rowPoints p.2 := rfl
      rw [h6]
      simp [freshRecord]

theorem exists_name_aggregatedStats (filtered : List Tournament)
    (resultsBy : List (String × List ResultRow)) (gamesBy : List (String × TallyMap))
    (n : String) :
    (∃ row ∈ aggregatedStats filtered resultsBy gamesBy, row.name = n) ↔
    ∃ rec ∈ aggregateAll filtered resultsBy gamesBy, rec.name = n := by
  unfold aggregatedStats
  constructor
  · rintro ⟨row, hrow, hname⟩
    rw [List.mem_insertionSort] at hrow
    obtain ⟨rec, hrec, rfl⟩ := List.mem_map.mp hrow
    exact ⟨rec, (mem_jsObjectOrder _ _).mp hrec, hname⟩
  · rintro ⟨rec, hrec, hname⟩
    exact ⟨finalize rec,
      (List.mem_insertionSort _).mpr
        (List.mem_map.mpr ⟨rec, (mem_jsObjectOrder _ _).mpr hrec, rfl⟩), hname⟩

theorem aggFind_isSome_iff (m : AggMap) (n : String) :
    (aggFind m n).isSome ↔ ∃ rec ∈ m, rec.name = n := by
  unfold aggFind
  rw [List.find?_isSome]
  simp

theorem aggFind_aggregateAll_isSome_iff (filtered : List Tournament)
    (resultsBy : List (String × List ResultRow)) (gamesBy : List (String × TallyMap))
    (n : String) :
    (aggFind (aggregateAll filtered resultsBy gamesBy) n).isSome ↔
      contribsOf (flatRows filtered resultsBy gamesBy) n ≠ [] := by
  rw [aggregateAll_eq_foldl, aggFind_foldl_aggStep]
  have e0 : aggFind ([] : AggMap) n = none := rfl
  rw [e0]
  cases h1 : contribsOf (flatRows filtered resultsBy gamesBy) n with
  | nil => simp
  | cons c cs => simp

theorem contribsOf_ne_nil_iff (ps : List (TallyMap × ResultRow)) (n : String) :
    contribsOf ps n ≠ [] ↔ ∃ p ∈ ps, resolveName p.2 = some n := by
  unfold contribsOf
  rw [Ne, List.filterMap_eq_nil_iff]
  constructor
  · intro h
    push_neg at h
    obtain ⟨p, hp, hne⟩ := h
    cases hres : resolveName p.2 with
    | none => rw [hres] at hne; simp at hne
    | some m2 =>
      rw [hres] at hne
      by_cases hm : m2 = n
      · exact ⟨p, hp, by rw [hres, hm]⟩
      · simp [hm] at hne
  · rintro ⟨p, hp, hres⟩ h
    have h2 := h p hp
    rw [hres] at h2
    simp at h2

theorem mem_flatRows_iff (filtered : List Tournament)
    (resultsBy : List (String × List ResultRow)) (gamesBy : List (String × TallyMap))
    (n : String) :
    (∃ p ∈ flatRows filtered resultsBy gamesBy, resolveName p.2 = some n) ↔
      ∃ t ∈ filtered, ∃ r ∈ resultsFor resultsBy t.id, resolveName r = some n := by
  unfold flatRows
  constructor
  · rintro ⟨p, hp, hres⟩
    rw [List.mem_flatMap] at hp
    obtain ⟨t, ht, hmem⟩ := hp
    obtain ⟨r, hr, rfl⟩ := List.mem_map.mp hmem
    exact ⟨t, ht, r, hr, hres⟩
  · rintro ⟨t, ht, r, hr, hres⟩
    exact ⟨(talliesFor gamesBy t.id, r),
      List.mem_flatMap.mpr ⟨t, ht, List.mem_map.mpr ⟨r, hr, rfl⟩⟩, hres⟩

/-- C9: a player name appears in the orchestrator's output exactly when some
ResultRow of some filtered tournament resolves to it (players appearing only
in game tallies are absent), and a filtered tournament with no entry in the
results-by-id mapping contributes nothing. -/
theorem c9_output_names (filtered : List Tournament)
    (resultsBy : List (String × List ResultRow)) (gamesBy : List (String × TallyMap))
    (n : String) :
    ((∃ row ∈ aggregatedStats filtered resultsBy gamesBy, row.name = n) ↔
      ∃ t ∈ filtered, ∃ r ∈ resultsFor resultsBy t.id, resolveName r = some n) ∧
    (∀ (m : AggMap) (t : Tournament), List.lookup t.id resultsBy = none →
      processTournament resultsBy gamesBy m t = m) := by
  constructor
  · rw [exists_name_aggregatedStats, ← aggFind_isSome_iff,
      aggFind_aggregateAll_isSome_iff, contribsOf_ne_nil_iff, mem_flatRows_iff]
  · intro m t h
    unfold processTournament resultsFor
    rw [h]
    rfl

/-- Witness for C9: player `"a"` appears in the output of a concrete input,
and a tournament absent from the results mapping changes nothing. -/
theorem c9_output_names_witness :
    (∃ row ∈ aggregatedStats [⟨"t1", "X", 0, none, none⟩]
        [("t1", [⟨some "a", none, none, none, some (some 3), none, none, none, none⟩])] [],
      row.name = "a") ∧
    processTournament
      [("t1", [⟨some "a", none, none, none, some (some 3), none, none, none, none⟩])] [] []
      ⟨"t9", "Z", 0, none, none⟩ = [] := by
  constructor
  · exact (c9_output_names [⟨"t1", "X", 0, none, none⟩]
      [("t1", [⟨some "a", none, none, none, some (some 3), none, none, none, none⟩])] []
      "a").1.mpr
      ⟨⟨"t1", "X", 0, none, none⟩, by with_unfolding_all decide,
        ⟨some "a", none, none, none, some (some 3), none, none, none, none⟩,
        by with_unfolding_all decide, rfl⟩
  · exact (c9_output_names [⟨"t1", "X", 0, none, none⟩]
      [("t1", [⟨some "a", none, none, none, some (some 3), none, none, none, none⟩])] []
      "a").2 [] ⟨"t9", "Z", 0, none, none⟩ (by with_unfolding_all decide)

theorem finalize_winRate_bounds (rec : AggRecord) :
    0 ≤ (finalize rec).winRate ∧ (finalize rec).winRate ≤ 100 := by
  have e : (finalize rec).winRate = if 0 < rec.w + rec.d + rec.l then
      ((rec.w : ℚ) / ((rec.w + rec.d + rec.l : Nat) : ℚ)) * 100 else 0 := rfl
  rw [e]
  by_cases h : 0 < rec.w + rec.d + rec.l
  · rw [if_pos h]
    have h2 : (0 : ℚ) < ((rec.w + rec.d + rec.l : Nat) : ℚ) := by exact_mod_cast h
    have h3 : (rec.w : ℚ) ≤ ((rec.w + rec.d + rec.l : Nat) : ℚ) := by
      exact_mod_cast (by omega : rec.w ≤ rec.w + rec.d + rec.l)
    constructor
    · exact mul_nonneg (div_nonneg (Nat.cast_nonneg _) h2.le) (by norm_num)
    · calc ((rec.w : ℚ) / ((rec.w + rec.d + rec.l : Nat) : ℚ)) * 100
          ≤ 1 * 100 := by
            apply mul_le_mul_of_nonneg_right _ (by norm_num)
            rw [div_le_one h2]
            exact h3
        _ = 100 := by norm_num
  · rw [if_neg h]
    norm_num

theorem contribs_perfWeight_sum_pos (cs : List Contribution)
    (h : ∀ c ∈ cs, 0 < c.perfWeight) (hne : cs ≠ []) :
    0 < (cs.map Contribution.perfWeight).sum := by
  apply List.sum_pos
  · intro x hx
    obtain ⟨c, hc, rfl⟩ := List.mem_map.mp hx
    exact h c hc
  · exact fun hnil => hne (List.map_eq_nil_iff.mp hnil)

theorem contribs_sum_lower (b : ℚ) (cs : List Contribution)
    (h : ∀ c ∈ cs, b * c.perfWeight ≤ c.perfSum) :
    b * (cs.map Contribution.perfWeight).sum ≤ (cs.map Contribution.perfSum).sum := by
  induction cs with
  | nil => simp
  | cons c cs ih =>
    simp only [List.map_cons, List.sum_cons, mul_add]
    exact add_le_add (h c (List.mem_cons_self _ _))
      (ih fun c2 h2 => h c2 (List.mem_cons_of_mem _ h2))

theorem contribs_sum_upper (B : ℚ) (cs : List Contribution)
    (h : ∀ c ∈ cs, c.perfSum ≤ B * c.perfWeight) :
    (cs.map Contribution.perfSum).sum ≤ B * (cs.map Contribution.perfWeight).sum := by
  induction cs with
  | nil => simp
  | cons c cs ih =>
    simp only [List.map_cons, List.sum_cons, mul_add]
    exact add_le_add (h c (List.mem_cons_self _ _))
      (ih fun c2 h2 => h c2 (List.mem_cons_of_mem _ h2))

/-- C7 amended: every output row's `winRate` lies in `[0, 100]`, and
`performanceRating` is `0` whenever `performanceWeightTotal = 0` (the code
returns `0` for any non-positive total); when every contributing weight is
positive, the rating is a weighted mean bounded by any lower/upper bound of
the contributed performance values. -/
theorem c7_metrics_bounds (filtered : List Tournament)
    (resultsBy : List (String × List ResultRow)) (gamesBy : List (String × TallyMap))
    (row : StatRow) (hrow : row ∈ aggregatedStats filtered resultsBy gamesBy) :
    0 ≤ row.winRate ∧ row.winRate ≤ 100 ∧
    (row.perfWeight = 0 → row.performance = 0) ∧
    ∀ b B : ℚ,
      (∀ p ∈ flatRows filtered resultsBy gamesBy, resolveName p.2 = some row.name →
        0 < weightFor (tallyLookup p.1 row.name) (rowPoints p.2) ∧
        b ≤ rowPerformance p.2 ∧ rowPerformance p.2 ≤ B) →
      b ≤ row.performance ∧ row.performance ≤ B := by
  unfold aggregatedStats at hrow
  rw [List.mem_insertionSort] at hrow
  obtain ⟨rec, hrec, rfl⟩ := List.mem_map.mp hrow
  have hrec2 : rec ∈ aggregateAll filtered resultsBy gamesBy :=
    (mem_jsObjectOrder _ _).mp hrec
  refine ⟨(finalize_winRate_bounds rec).1, (finalize_winRate_bounds rec).2, ?_, ?_⟩
  · intro h0
    show (if 0 < rec.perfWeight then rec.perfSum / rec.perfWeight else 0) = 0
    rw [if_neg]
    intro hlt
    have h0b : rec.perfWeight = 0 := h0
    rw [h0b] at hlt
    exact lt_irrefl 0 hlt
  · intro b B hyp
    have hfind := aggFind_of_mem _
      (aggregateAll_names_nodup filtered resultsBy gamesBy) rec hrec2
    rw [aggregateAll_eq_foldl, aggFind_foldl_aggStep] at hfind
    rw [show aggFind ([] : AggMap) rec.name = none from rfl] at hfind
    cases h1 : contribsOf (flatRows filtered resultsBy gamesBy) rec.name with
    | nil =>
      rw [h1] at hfind
      exact absurd hfind (by simp)
    | cons c cs =>
      rw [h1] at hfind
      have hfind2 : some (applyContribs (freshRecord rec.name) (c :: cs)) = some rec := hfind
      have hre : rec = applyContribs (freshRecord rec.name) (c :: cs) :=
        (Option.some.inj hfind2).symm
      rw [applyContribs_fields] at hre
      have hall : ∀ c2 ∈ c :: cs, 0 < c2.perfWeight ∧
          b * c2.perfWeight ≤ c2.perfSum ∧ c2.perfSum ≤ B * c2.perfWeight := by
        intro c2 hc2
        have hc2m : c2 ∈ contribsOf (flatRows filtered resultsBy gamesBy) rec.name := by
          rw [h1]; exact hc2
        rw [contribsOf_eq_filter] at hc2m
        obtain ⟨p, hpfil, rfl⟩ := List.mem_map.mp hc2m
        have hpmem : p ∈ flatRows filtered resultsBy gamesBy :=
          (List.mem_filter.mp hpfil).1
        have hpres : resolveName p.2 = some rec.name := by
          have h5 := (List.mem_filter.mp hpfil).2
          simpa using h5
        obtain ⟨hwpos, hlb, hub⟩ := hyp p hpmem hpres
        exact ⟨hwpos, mul_le_mul_of_nonneg_right hlb hwpos.le,
          mul_le_mul_of_nonneg_right hub hwpos.le⟩
      have hwpos : 0 < (List.map Contribution.perfWeight (c :: cs)).sum :=
        contribs_perfWeight_sum_pos _ (fun c2 hc2 => (hall c2 hc2).1) (by simp)
      have hlow := contribs_sum_lower b _ fun c2 hc2 => (hall c2 hc2).2.1
      have hupp := contribs_sum_upper B _ fun c2 hc2 => (hall c2 hc2).2.2
      have hpw : rec.perfWeight = (List.map Contribution.perfWeight (c :: cs)).sum := by
        rw [hre]
        simp [freshRecord]
      have hps : rec.perfSum = (List.map Contribution.perfSum (c :: cs)).sum := by
        rw [hre]
        simp [freshRecord]
      have hwrec : 0 < rec.perfWeight := by rw [hpw]; exact hwpos
      constructor
      · show b ≤ (if 0 < rec.perfWeight then rec.perfSum / rec.perfWeight else 0)
        rw [if_pos hwrec, le_div_iff₀ hwrec, hps, hpw]
        exact hlow
      · show (if 0 < rec.perfWeight then rec.perfSum / rec.perfWeight else 0) ≤ B
        rw [if_pos hwrec, div_le_iff₀ hwrec, hps, hpw]
        linarith [hupp]

set_option maxRecDepth 2000 in
/-- Witness for the amended C7 at a concrete input: one tournament, points
10, performance 1500, no games; the output rating is exactly 1500 and the
win rate is within `[0, 100]`. -/
theorem c7_metrics_bounds_witness :
    ((1500 : ℚ) ≤ (⟨"a", 10, 0, 0, 0, 1, 15000, 10, 0, 0, 1500⟩ : StatRow).performance ∧
      (⟨"a", 10, 0, 0, 0, 1, 15000, 10, 0, 0, 1500⟩ : StatRow).performance ≤ 1500) ∧
    0 ≤ (⟨"a", 10, 0, 0, 0, 1, 15000, 10, 0, 0, 1500⟩ : StatRow).winRate ∧
    (⟨"a", 10, 0, 0, 0, 1, 15000, 10, 0, 0, 1500⟩ : StatRow).winRate ≤ 100 := by
  have e : aggregatedStats [⟨"t1", "X", 0, none, none⟩]
      [("t1", [⟨some "a", none, none, none, some (some 10), none, some (some 1500),
        none, none⟩])] []
      = [⟨"a", 10, 0, 0, 0, 1, 15000, 10, 0, 0, 1500⟩] := by
    with_unfolding_all rfl
  have hrow : (⟨"a", 10, 0, 0, 0, 1, 15000, 10, 0, 0, 1500⟩ : StatRow) ∈
      aggregatedStats [⟨"t1", "X", 0, none, none⟩]
        [("t1", [⟨some "a", none, none, none, some (some 10), none, some (some 1500),
          none, none⟩])] [] := by
    rw [e]
    exact List.mem_singleton_self _
  have h := c7_metrics_bounds _ _ _ _ hrow
  refine ⟨h.2.2.2 1500 1500 ?_, h.1, h.2.1⟩
  have ef : flatRows [⟨"t1", "X", 0, none, none⟩]
      [("t1", [⟨some "a", none, none, none, some (some 10), none, some (some 1500),
        none, none⟩])] []
      = [([], ⟨some "a", none, none, none, some (some 10), none, some (some 1500),
        none, none⟩)] := by
    with_unfolding_all rfl
  intro p hp hres
  rw [ef, List.mem_singleton] at hp
  subst hp
  refine ⟨?_, ?_, ?_⟩
  · have hv : weightFor (tallyLookup []
        (⟨"a", 10, 0, 0, 0, 1, 15000, 10, 0, 0, 1500⟩ : StatRow).name)
        (rowPoints ⟨some "a", none, none, none, some (some 10), none, some (some 1500),
          none, none⟩) = 10 := rfl
    rw [hv]
    norm_num
  · have hv : rowPerformance ⟨some "a", none, none, none, some (some 10), none,
        some (some 1500), none, none⟩ = 1500 := rfl
    rw [hv]
  · have hv : rowPerformance ⟨some "a", none, none, none, some (some 10), none,
        some (some 1500), none, none⟩ = 1500 := rfl
    rw [hv]

set_option maxRecDepth 2000 in
/-- C7 counterexample: with two tournaments whose weights are `2` and `-1`
(negative points, empty tally), the weight total is `1 > 0` but the rating
is `0`, strictly below the minimum contributed performance value `1000`. -/
theorem c7_weighted_mean_counterexample :
    (aggregatedStats [⟨"t1", "X", 0, none, none⟩, ⟨"t2", "Y", 0, none, none⟩]
        [("t1", [⟨some "a", none, none, none, some (some 2), none, some (some 1000),
          none, none⟩]),
         ("t2", [⟨some "a", none, none, none, some (some (-1)), none, some (some 2000),
          none, none⟩])]
        []).map StatRow.performance = [0] ∧
    (aggregatedStats [⟨"t1", "X", 0, none, none⟩, ⟨"t2", "Y", 0, none, none⟩]
        [("t1", [⟨some "a", none, none, none, some (some 2), none, some (some 1000),
          none, none⟩]),
         ("t2", [⟨some "a", none, none, none, some (some (-1)), none, some (some 2000),
          none, none⟩])]
        []).map StatRow.perfWeight = [1] ∧
    ¬((1000 : ℚ) ≤ 0) := by
  refine ⟨by with_unfolding_all rfl, by with_unfolding_all rfl, by norm_num⟩

/-- C2 amended: the output is sorted descending by points with ties broken
descending by winRate, and the sort is stable with respect to the JS object
enumeration of the aggregate map (array-index-like names first in ascending
numeric order, then the remaining names in fold-insertion order); when no
player name is an array-index string, that enumeration is exactly the
fold-insertion order, recovering the claim as stated. -/
theorem c2_sort_stable_amended (filtered : List Tournament)
    (resultsBy : List (String × List ResultRow)) (gamesBy : List (String × TallyMap)) :
    (aggregatedStats filtered resultsBy gamesBy).Pairwise statGE ∧
    (aggregatedStats filtered resultsBy gamesBy).Perm
      ((jsObjectOrder (aggregateAll filtered resultsBy gamesBy)).map finalize) ∧
    (∀ a b : StatRow, statGE a b →
      List.Sublist [a, b]
        ((jsObjectOrder (aggregateAll filtered resultsBy gamesBy)).map finalize) →
      List.Sublist [a, b] (aggregatedStats filtered resultsBy gamesBy)) ∧
    ((∀ rec ∈ aggregateAll filtered resultsBy gamesBy, arrayIndexKey rec.name = none) →
      jsObjectOrder (aggregateAll filtered resultsBy gamesBy) =
        aggregateAll filtered resultsBy gamesBy) := by
  refine ⟨List.sorted_insertionSort _ _, List.perm_insertionSort _ _,
    fun a b hab hsub => List.pair_sublist_insertionSort hab hsub, fun h => ?_⟩
  unfold jsObjectOrder
  have h1 : ((aggregateAll filtered resultsBy gamesBy).filter
      fun r => (arrayIndexKey r.name).isSome) = [] := by
    rw [List.filter_eq_nil_iff]
    intro a ha
    simp [h a ha]
  have h2 : ((aggregateAll filtered resultsBy gamesBy).filter
      fun r => (arrayIndexKey r.name).isNone) = aggregateAll filtered resultsBy gamesBy := by
    rw [List.filter_eq_self]
    intro a ha
    simp [h a ha]
  rw [h1, h2]
  rfl

set_option maxRecDepth 2000 in
/-- C2 counterexample: with players inserted in fold order `"alice"` then
`"2"`, all tied on points and winRate, the output lists `"2"` first —
`Object.values` enumerates the canonical array-index key `"2"` before the
insertion-ordered string keys, so fold-insertion order is not preserved. -/
theorem c2_insertion_order_counterexample :
    (aggregateAll [⟨"t1", "X", 0, none, none⟩]
        [("t1", [⟨some "alice", none, none, none, some (some 5), none, none, none, none⟩,
          ⟨some "2", none, none, none, some (some 5), none, none, none, none⟩])]
        []).map AggRecord.name = ["alice", "2"] ∧
    (aggregatedStats [⟨"t1", "X", 0, none, none⟩]
        [("t1", [⟨some "alice", none, none, none, some (some 5), none, none, none, none⟩,
          ⟨some "2", none, none, none, some (some 5), none, none, none, none⟩])]
        []).map StatRow.name = ["2", "alice"] ∧
    (aggregatedStats [⟨"t1", "X", 0, none, none⟩]
        [("t1", [⟨some "alice", none, none, none, some (some 5), none, none, none, none⟩,
          ⟨some "2", none, none, none, some (some 5), none, none, none, none⟩])]
        []).map StatRow.points = [5, 5] ∧
    (aggregatedStats [⟨"t1", "X", 0, none, none⟩]
        [("t1", [⟨some "alice", none, none, none, some (some 5), none, none, none, none⟩,
          ⟨some "2", none, none, none, some (some 5), none, none, none, none⟩])]
        []).map StatRow.winRate = [0, 0] := by
  refine ⟨?_, ?_, ?_, ?_⟩ <;> with_unfolding_all rfl

set_option maxRecDepth 2000 in
/-- Witness for the amended C2 at a concrete input: two players `"alice"`
and `"bob"` (no array-index names) tied on points and winRate keep their
fold-insertion order in the sorted output. -/
theorem c2_sort_stable_amended_witness :
    (aggregatedStats [⟨"t1", "X", 0, none, none⟩]
        [("t1", [⟨some "alice", none, none, none, some (some 5), none, none, none, none⟩,
          ⟨some "bob", none, none, none, some (some 5), none, none, none, none⟩])]
        []).Pairwise statGE ∧
    jsObjectOrder (aggregateAll [⟨"t1", "X", 0, none, none⟩]
        [("t1", [⟨some "alice", none, none, none, some (some 5), none, none, none, none⟩,
          ⟨some "bob", none, none, none, some (some 5), none, none, none, none⟩])]
        []) =
      aggregateAll [⟨"t1", "X", 0, none, none⟩]
        [("t1", [⟨some "alice", none, none, none, some (some 5), none, none, none, none⟩,
          ⟨some "bob", none, none, none, some (some 5), none, none, none, none⟩])]
        [] ∧
    List.Sublist
      [(⟨"alice", 5, 0, 0, 0, 1, 0, 5, 0, 0, 0⟩ : StatRow),
        (⟨"bob", 5, 0, 0, 0, 1, 0, 5, 0, 0, 0⟩ : StatRow)]
      (aggregatedStats [⟨"t1", "X", 0, none, none⟩]
        [("t1", [⟨some "alice", none, none, none, some (some 5), none, none, none, none⟩,
          ⟨some "bob", none, none, none, some (some 5), none, none, none, none⟩])]
        []) := by
  have h := c2_sort_stable_amended [⟨"t1", "X", 0, none, none⟩]
    [("t1", [⟨some "alice", none, none, none, some (some 5), none, none, none, none⟩,
      ⟨some "bob", none, none, none, some (some 5), none, none, none, none⟩])]
    []
  refine ⟨h.1, h.2.2.2 ?_, ?_⟩
  · intro rec hrec
    have e : aggregateAll [⟨"t1", "X", 0, none, none⟩]
        [("t1", [⟨some "alice", none, none, none, some (some 5), none, none, none, none⟩,
          ⟨some "bob", none, none, none, some (some 5), none, none, none, none⟩])]
        [] = [⟨"alice", 5, 0, 0, 0, 1, 0, 5⟩, ⟨"bob", 5, 0, 0, 0, 1, 0, 5⟩] := by
      with_unfolding_all rfl
    rw [e, List.mem_cons, List.mem_cons] at hrec
    rcases hrec with rfl | rfl | hrec
    · with_unfolding_all rfl
    · with_unfolding_all rfl
    · cases hrec
  · apply h.2.2.1
    · show statGE _ _
      right
      exact ⟨rfl, le_refl _⟩
    · have e2 : (jsObjectOrder (aggregateAll [⟨"t1", "X", 0, none, none⟩]
          [("t1", [⟨some "alice", none, none, none, some (some 5), none, none, none, none⟩,
            ⟨some "bob", none, none, none, some (some 5), none, none, none, none⟩])]
          [])).map finalize =
          [(⟨"alice", 5, 0, 0, 0, 1, 0, 5, 0, 0, 0⟩ : StatRow),
            (⟨"bob", 5, 0, 0, 0, 1, 0, 5, 0, 0, 0⟩ : StatRow)] := by
        with_unfolding_all rfl
      rw [e2]
